import Mathlib

/-!
Shallow embedding of the AMI provenance classification engine of
DataDog/whoAMI-scanner (main.go).  The scan loop of `main` (lines 84-214)
is embedded as a fold over regions, instances and image ids acting on an
explicit `ScanState`; the AWS SDK calls are abstracted as an `Env` of
response functions (`none` models a call returning an error).  Go maps are
embedded as association lists with a key-replacing insert, so that the
number of entries matches Go's `len`.
-/

/-- The `AMI` record of main.go (lines 17-25). -/
structure AMI where
  ID : String
  Region : String
  OwnerAlias : String
  OwnerID : String
  Name : String
  Description : String
  Public : String
deriving DecidableEq

/-- One element of `DescribeImages().Images`, restricted to the fields the
program reads.  The string fields model `ptr.ToString` of the SDK pointers,
so a missing field is the empty string. -/
structure Image where
  ImagePublic : Bool
  ImageOwnerAlias : String
  OwnerId : String
  ImageName : String
  ImageDescription : String
deriving DecidableEq

/-- The external AWS collaborators, as response functions.
`listInstances region` is the flattened list of instance ids of
`DescribeInstances` over a region; `describeInstance region instanceID`
is the flattened list of image ids in the per-instance detail response;
`describeImages region amiID` is `DescribeImages(ImageIds=[amiID]).Images`.
`none` models the SDK call returning an error. -/
structure Env where
  listInstances : String → Option (List String)
  describeInstance : String → String → Option (List String)
  describeImages : String → String → Option (List Image)

/-- The mutable state of the scan loop: the dedup cache `processedAMIs`
and the four category buckets (main.go lines 84-89), plus
`totalInstances` (line 89).  `resolved` is a ghost field recording, in
order, every image id for which `DescribeImages` was invoked (line 146);
it instruments the code without changing its visible behaviour. -/
structure ScanState where
  processedAMIs : List String
  verifiedAMIs : List (String × AMI)
  unverifiedAMIs : List (String × AMI)
  unknownAMIs : List (String × AMI)
  privateAMIs : List (String × AMI)
  totalInstances : Nat
  resolved : List String
deriving DecidableEq

/-- Keys of an embedded Go map. -/
def mapKeys (m : List (String × AMI)) : List String := m.map Prod.fst

/-- Lookup in an embedded Go map. -/
def mapFind (m : List (String × AMI)) (k : String) : Option AMI :=
  match m with
  | [] => none
  | p :: rest => if p.1 = k then some p.2 else mapFind rest k

/-- Go map assignment `m[k] = v`: replace the binding when the key is
present, otherwise add it. -/
def mapInsert (m : List (String × AMI)) (k : String) (v : AMI) : List (String × AMI) :=
  if k ∈ mapKeys m then m.map (fun p => if p.1 = k then (k, v) else p)
  else (k, v) :: m

/-- The record built for an unresolvable image (main.go lines 157-165). -/
def unknownAMI (amiID region : String) : AMI :=
  { ID := amiID, Region := region, OwnerAlias := "Unknown", OwnerID := "Unknown",
    Name := "Unknown", Description := "Unknown", Public := "Unknown" }

/-- The `ami` record built from a resolved image (main.go lines 168-184),
including the `publicString` computation. -/
def mkAMI (region amiID : String) (image : Image) : AMI :=
  { ID := amiID, Region := region, OwnerAlias := image.ImageOwnerAlias,
    OwnerID := image.OwnerId, Name := image.ImageName,
    Description := image.ImageDescription,
    Public := if image.ImagePublic then "Public" else "Private" }

/-- The classification branch of the scan loop (main.go lines 186-209):
route one resolved image into a bucket.  Note the source has no `else`
for a public image whose alias is non-empty and neither "amazon" nor
"self": that case returns the state unchanged. -/
def classifyImage (region amiID : String) (image : Image) (s : ScanState) : ScanState :=
  if image.ImagePublic then
    if (mkAMI region amiID image).OwnerAlias ≠ "" then
      if (mkAMI region amiID image).OwnerAlias = "amazon" then
        { s with verifiedAMIs := mapInsert s.verifiedAMIs amiID (mkAMI region amiID image) }
      else if (mkAMI region amiID image).OwnerAlias = "self" then
        { s with privateAMIs :=
            mapInsert s.privateAMIs amiID { mkAMI region amiID image with OwnerAlias := "self" } }
      else
        s
    else
      { s with unverifiedAMIs := mapInsert s.unverifiedAMIs amiID (mkAMI region amiID image) }
  else
    { s with privateAMIs := mapInsert s.privateAMIs amiID (mkAMI region amiID image) }

/-- Processing of one observed image id (main.go lines 131-210): the dedup
check (line 133), the mark (line 139), the `DescribeImages` call (146,
recorded in `resolved`), the error skip (149-154), the deleted/private
branch (155-167), and the classification loop over the returned images
(169-209). -/
def processAMI (env : Env) (region amiID : String) (s : ScanState) : ScanState :=
  if amiID ∈ s.processedAMIs then s
  else
    match env.describeImages region amiID with
    | none =>
        { s with processedAMIs := amiID :: s.processedAMIs, resolved := amiID :: s.resolved }
    | some [] =>
        { s with processedAMIs := amiID :: s.processedAMIs, resolved := amiID :: s.resolved,
                 unknownAMIs := mapInsert s.unknownAMIs amiID (unknownAMI amiID region) }
    | some images =>
        images.foldl (fun t image => classifyImage region amiID image t)
          { s with processedAMIs := amiID :: s.processedAMIs, resolved := amiID :: s.resolved }

/-- Processing of one instance (main.go lines 119-213): fetch its detail;
on error skip the instance (line 126), else process each image id seen. -/
def processInstance (env : Env) (region instanceID : String) (s : ScanState) : ScanState :=
  match env.describeInstance region instanceID with
  | none => s
  | some amiIDs => amiIDs.foldl (fun t amiID => processAMI env region amiID t) s

/-- Processing of one region (main.go lines 93-214): list instances, on
error skip the region (line 104), else count them into `totalInstances`
(line 114) and process each. -/
def processRegion (env : Env) (region : String) (s : ScanState) : ScanState :=
  match env.listInstances region with
  | none => s
  | some instanceIDs =>
      instanceIDs.foldl (fun t instanceID => processInstance env region instanceID t)
        { s with totalInstances := s.totalInstances + instanceIDs.length }

/-- The region loop (main.go line 93). -/
def scanRegions (env : Env) (regions : List String) (s : ScanState) : ScanState :=
  regions.foldl (fun t region => processRegion env region t) s

/-- The state at main.go lines 84-89, before the region loop. -/
def initState : ScanState :=
  { processedAMIs := [], verifiedAMIs := [], unverifiedAMIs := [], unknownAMIs := [],
    privateAMIs := [], totalInstances := 0, resolved := [] }

/-- The whole scan (main.go lines 84-214). -/
def runScan (env : Env) (regions : List String) : ScanState :=
  scanRegions env regions initState

/-- The summary figures printed at main.go lines 233-239. -/
structure ScanSummary where
  totalInstances : Nat
  totalAMIs : Nat
  privateCount : Nat
  verifiedCount : Nat
  unknownCount : Nat
  unverifiedCount : Nat
deriving DecidableEq

/-- Summary extraction (main.go lines 233-239): each count is the Go
`len` of the corresponding map. -/
def summarize (s : ScanState) : ScanSummary :=
  { totalInstances := s.totalInstances, totalAMIs := s.processedAMIs.length,
    privateCount := s.privateAMIs.length, verifiedCount := s.verifiedAMIs.length,
    unknownCount := s.unknownAMIs.length, unverifiedCount := s.unverifiedAMIs.length }

/-- The export header line (main.go line 250). -/
def headerLine : String :=
  "AMI ID|Region|whoAMI status|Public|Owner Alias|Owner ID|Name|Description\n"

/-- One row of the verified block (main.go line 252). -/
def rowVerified (ami : AMI) : String :=
  ami.ID ++ "|" ++ ami.Region ++ "|Verified|" ++ ami.Public ++ "|" ++ ami.OwnerAlias
    ++ "|" ++ ami.OwnerID ++ "|" ++ ami.Name ++ "|" ++ ami.Description ++ "\n"

/-- One row of the private block (main.go line 255). -/
def rowPrivate (ami : AMI) : String :=
  ami.ID ++ "|" ++ ami.Region ++ "|Private|" ++ ami.Public ++ "|" ++ ami.OwnerAlias
    ++ "|" ++ ami.OwnerID ++ "|" ++ ami.Name ++ "|" ++ ami.Description ++ "\n"

/-- One row of the unknown block (main.go line 258), exactly as the format
string writes it. -/
def rowUnknown (ami : AMI) : String :=
  ami.ID ++ "|" ++ ami.Region ++ "|Unknown|Unknown|Unknown|Unknown|Unknown\n"

/-- One row of the unverified block (main.go line 261). -/
def rowUnverified (ami : AMI) : String :=
  ami.ID ++ "|" ++ ami.Region ++ "|Unverified|" ++ ami.Public ++ "|" ++ ami.OwnerAlias
    ++ "|" ++ ami.OwnerID ++ "|" ++ ami.Name ++ "|" ++ ami.Description ++ "\n"

/-- The sequence of lines written by the export step (main.go lines
250-262).  The four list arguments are the sequences in which Go's
`range` happens to enumerate the four bucket maps; Go leaves that order
unspecified, so the export of a given final state is `exportLines`
applied to some permutation of each bucket's values. -/
def exportLines (verified priv unknown unverified : List AMI) : List String :=
  headerLine :: (verified.map rowVerified ++ priv.map rowPrivate
    ++ unknown.map rowUnknown ++ unverified.map rowUnverified)

/-- The bytes of the export file: the concatenation of its lines. -/
def exportFile (verified priv unknown unverified : List AMI) : String :=
  String.join (exportLines verified priv unknown unverified)

/-- The lookups of one image id across the four buckets, in the order
verified, private, unknown, unverified. -/
def bucketFindAll (s : ScanState) (j : String) :
    Option AMI × Option AMI × Option AMI × Option AMI :=
  (mapFind s.verifiedAMIs j, mapFind s.privateAMIs j,
   mapFind s.unknownAMIs j, mapFind s.unverifiedAMIs j)

/-- Ghost invariant: no image id was resolved twice, and only processed
ids were ever resolved. -/
def ResolvedInv (s : ScanState) : Prop :=
  s.resolved.Nodup ∧ ∀ x ∈ s.resolved, x ∈ s.processedAMIs

/-- Pairwise disjointness of four key lists (verified, private, unknown,
unverified). -/
def DisjointKeys (V P U W : List String) : Prop :=
  (∀ x ∈ V, x ∉ P ∧ x ∉ U ∧ x ∉ W) ∧ (∀ x ∈ P, x ∉ U ∧ x ∉ W) ∧ (∀ x ∈ U, x ∉ W)

/-- Every key of the four lists belongs to `proc`. -/
def CoveredKeys (proc V P U W : List String) : Prop :=
  (∀ x ∈ V, x ∈ proc) ∧ (∀ x ∈ P, x ∈ proc) ∧ (∀ x ∈ U, x ∈ proc) ∧ (∀ x ∈ W, x ∈ proc)

/-- Pairwise disjointness of the four buckets' key sets. -/
def BucketsDisjoint (s : ScanState) : Prop :=
  DisjointKeys (mapKeys s.verifiedAMIs) (mapKeys s.privateAMIs)
    (mapKeys s.unknownAMIs) (mapKeys s.unverifiedAMIs)

/-- Every bucket key has been marked processed. -/
def KeysProcessed (s : ScanState) : Prop :=
  CoveredKeys s.processedAMIs (mapKeys s.verifiedAMIs) (mapKeys s.privateAMIs)
    (mapKeys s.unknownAMIs) (mapKeys s.unverifiedAMIs)

/-- The bucket invariant maintained by the scan loop. -/
def ScanInv (s : ScanState) : Prop := BucketsDisjoint s ∧ KeysProcessed s

/-- The documented resolver contract (spec section 6): `DescribeImages`
on a single image id returns at most one image. -/
def ResolverSingle (env : Env) : Prop :=
  ∀ region amiID images, env.describeImages region amiID = some images → images.length ≤ 1

/-- A public third-party image: visibility public, owner alias `"12345"`,
neither of the reserved values. -/
def img12345 : Image :=
  { ImagePublic := true, ImageOwnerAlias := "12345", OwnerId := "999999999999",
    ImageName := "some-name", ImageDescription := "some-desc" }

/-- Environment with one region holding one instance launched from one
resolvable public third-party image. -/
def env1 : Env :=
  { listInstances := fun _ => some ["i-1"],
    describeInstance := fun _ _ => some ["ami-2"],
    describeImages := fun _ _ => some [img12345] }

/-- Environment whose resolver fails with a (transient) error on every
image id. -/
def envErr : Env :=
  { listInstances := fun _ => some ["i-1"],
    describeInstance := fun _ _ => some ["ami-9"],
    describeImages := fun _ _ => none }

/-- Environment whose resolver reports every image id as not found. -/
def envNF : Env :=
  { listInstances := fun _ => some ["i-1"],
    describeInstance := fun _ _ => some ["ami-5"],
    describeImages := fun _ _ => some [] }

/-- Environment in which listing instances fails for region "bad" and
returns an empty listing elsewhere. -/
def envFail : Env :=
  { listInstances := fun r => if r = "bad" then none else some [],
    describeInstance := fun _ _ => some [],
    describeImages := fun _ _ => some [] }

/-- A state whose dedup cache already holds "ami-1". -/
def statePre : ScanState := { initState with processedAMIs := ["ami-1"] }

/-- Concrete verified record used in the export theorems. -/
def amiA : AMI :=
  { ID := "ami-a", Region := "r1", OwnerAlias := "amazon", OwnerID := "111",
    Name := "na", Description := "da", Public := "Public" }

/-- A second, distinct verified record used in the export theorems. -/
def amiB : AMI :=
  { ID := "ami-b", Region := "r1", OwnerAlias := "amazon", OwnerID := "222",
    Name := "nb", Description := "db", Public := "Public" }

/-- Between states `t` and `u`, any bucket record of `amiID` either was
already there in `t` or carries `region` in its region field: a step of
region `region` can only create records stamped with that region. -/
def RegionStamped (region amiID : String) (t u : ScanState) : Prop :=
  (∀ rec, mapFind u.verifiedAMIs amiID = some rec →
      mapFind t.verifiedAMIs amiID = some rec ∨ rec.Region = region)
  ∧ (∀ rec, mapFind u.privateAMIs amiID = some rec →
      mapFind t.privateAMIs amiID = some rec ∨ rec.Region = region)
  ∧ (∀ rec, mapFind u.unknownAMIs amiID = some rec →
      mapFind t.unknownAMIs amiID = some rec ∨ rec.Region = region)
  ∧ (∀ rec, mapFind u.unverifiedAMIs amiID = some rec →
      mapFind t.unverifiedAMIs amiID = some rec ∨ rec.Region = region)

theorem mapFind_replace_self (m : List (String × AMI)) (k : String) (v : AMI)
    (hk : k ∈ mapKeys m) :
    mapFind (m.map (fun p => if p.1 = k then (k, v) else p)) k = some v := by
  induction m with
  | nil => simp [mapKeys] at hk
  | cons p rest ih =>
    by_cases hp : p.1 = k
    · simp [mapFind, hp]
    · have hk2 : k ∈ mapKeys rest := by
        simp only [mapKeys, List.map_cons, List.mem_cons] at hk
        rcases hk with h1 | h1
        · exact absurd h1.symm hp
        · exact h1
      simp [mapFind, hp, ih hk2]

theorem mapFind_replace_ne (m : List (String × AMI)) (k j : String) (v : AMI)
    (hjk : j ≠ k) :
    mapFind (m.map (fun p => if p.1 = k then (k, v) else p)) j = mapFind m j := by
  induction m with
  | nil => rfl
  | cons p rest ih =>
    have hkj : ¬ (k = j) := fun h => hjk h.symm
    by_cases hp : p.1 = k
    · have hpj : ¬ (p.1 = j) := by rw [hp]; exact hkj
      simp [mapFind, hp, hpj, hkj, ih]
    · simp [mapFind, hp, ih]

theorem mapFind_insert_self (m : List (String × AMI)) (k : String) (v : AMI) :
    mapFind (mapInsert m k v) k = some v := by
  unfold mapInsert
  split
  · next hk => exact mapFind_replace_self m k v hk
  · simp [mapFind]

theorem mapFind_insert_ne (m : List (String × AMI)) (k j : String) (v : AMI)
    (hjk : j ≠ k) : mapFind (mapInsert m k v) j = mapFind m j := by
  unfold mapInsert
  split
  · exact mapFind_replace_ne m k j v hjk
  · simp [mapFind, Ne.symm hjk]

theorem mapKeys_insert_fresh (m : List (String × AMI)) (k : String) (v : AMI)
    (hk : k ∉ mapKeys m) : mapKeys (mapInsert m k v) = k :: mapKeys m := by
  unfold mapInsert
  rw [if_neg hk]
  rfl

theorem classify_fixed_fields (region amiID : String) (image : Image) (s : ScanState) :
    (classifyImage region amiID image s).processedAMIs = s.processedAMIs
    ∧ (classifyImage region amiID image s).resolved = s.resolved
    ∧ (classifyImage region amiID image s).totalInstances = s.totalInstances := by
  unfold classifyImage
  split
  · split
    · split
      · exact ⟨rfl, rfl, rfl⟩
      · split
        · exact ⟨rfl, rfl, rfl⟩
        · exact ⟨rfl, rfl, rfl⟩
    · exact ⟨rfl, rfl, rfl⟩
  · exact ⟨rfl, rfl, rfl⟩

theorem classify_find_ne (region amiID : String) (image : Image) (s : ScanState)
    (j : String) (hja : j ≠ amiID) :
    bucketFindAll (classifyImage region amiID image s) j = bucketFindAll s j := by
  unfold classifyImage bucketFindAll
  split
  · split
    · split
      · simp only [mapFind_insert_ne _ _ _ _ hja]
      · split
        · simp only [mapFind_insert_ne _ _ _ _ hja]
        · rfl
    · simp only [mapFind_insert_ne _ _ _ _ hja]
  · simp only [mapFind_insert_ne _ _ _ _ hja]

theorem foldl_classify_fixed (region amiID : String) (images : List Image) (s : ScanState) :
    (images.foldl (fun t image => classifyImage region amiID image t) s).processedAMIs
        = s.processedAMIs
    ∧ (images.foldl (fun t image => classifyImage region amiID image t) s).resolved
        = s.resolved
    ∧ (images.foldl (fun t image => classifyImage region amiID image t) s).totalInstances
        = s.totalInstances := by
  induction images generalizing s with
  | nil => exact ⟨rfl, rfl, rfl⟩
  | cons i t ih =>
    rw [List.foldl_cons]
    refine ⟨?_, ?_, ?_⟩
    · rw [(ih (classifyImage region amiID i s)).1, (classify_fixed_fields region amiID i s).1]
    · rw [(ih (classifyImage region amiID i s)).2.1,
        (classify_fixed_fields region amiID i s).2.1]
    · rw [(ih (classifyImage region amiID i s)).2.2,
        (classify_fixed_fields region amiID i s).2.2]

theorem foldl_classify_find_ne (region amiID : String) (images : List Image)
    (s : ScanState) (j : String) (hja : j ≠ amiID) :
    bucketFindAll (images.foldl (fun t image => classifyImage region amiID image t) s) j
      = bucketFindAll s j := by
  induction images generalizing s with
  | nil => rfl
  | cons i t ih =>
    rw [List.foldl_cons, ih (classifyImage region amiID i s),
      classify_find_ne region amiID i s j hja]

theorem processAMI_skip (env : Env) (region amiID : String) (s : ScanState)
    (h : amiID ∈ s.processedAMIs) : processAMI env region amiID s = s := by
  unfold processAMI
  rw [if_pos h]

theorem processAMI_processed_mono (env : Env) (region amiID : String) (s : ScanState)
    (x : String) (h : x ∈ s.processedAMIs) : x ∈ (processAMI env region amiID s).processedAMIs := by
  unfold processAMI
  split
  · exact h
  · cases henv : env.describeImages region amiID with
    | none => exact List.mem_cons_of_mem _ h
    | some images =>
      cases images with
      | nil => exact List.mem_cons_of_mem _ h
      | cons i t =>
        rw [(foldl_classify_fixed region amiID (i :: t) _).1]
        exact List.mem_cons_of_mem _ h

theorem processAMI_find_preserved (env : Env) (region amiID : String) (s : ScanState)
    (j : String) (hj : j ∈ s.processedAMIs) :
    bucketFindAll (processAMI env region amiID s) j = bucketFindAll s j := by
  unfold processAMI
  split
  · rfl
  · next hnotin =>
    have hja : j ≠ amiID := fun h => hnotin (h ▸ hj)
    cases henv : env.describeImages region amiID with
    | none => rfl
    | some images =>
      cases images with
      | nil =>
        unfold bucketFindAll
        simp only [mapFind_insert_ne _ _ _ _ hja]
      | cons i t => exact foldl_classify_find_ne region amiID (i :: t) _ j hja

theorem processAMI_resolved_inv (env : Env) (region amiID : String) (s : ScanState)
    (h : ResolvedInv s) : ResolvedInv (processAMI env region amiID s) := by
  unfold processAMI
  split
  · exact h
  · next hnotin =>
    have hfresh : amiID ∉ s.resolved := fun hm => hnotin (h.2 amiID hm)
    have hstep : ∀ t : ScanState, t.processedAMIs = amiID :: s.processedAMIs →
        t.resolved = amiID :: s.resolved → ResolvedInv t := by
      intro t hp hr
      constructor
      · rw [hr]; exact List.Nodup.cons hfresh h.1
      · intro x hx
        rw [hr] at hx
        rw [hp]
        rcases List.mem_cons.mp hx with hx1 | hx2
        · exact hx1 ▸ List.mem_cons_self _ _
        · exact List.mem_cons_of_mem _ (h.2 x hx2)
    cases henv : env.describeImages region amiID with
    | none => exact hstep _ rfl rfl
    | some images =>
      cases images with
      | nil => exact hstep _ rfl rfl
      | cons i t =>
        exact hstep _ (foldl_classify_fixed region amiID (i :: t) _).1
          (foldl_classify_fixed region amiID (i :: t) _).2.1

theorem foldl_preserve {α : Type} {P : ScanState → Prop} {f : ScanState → α → ScanState}
    (h : ∀ s a, P s → P (f s a)) :
    ∀ (l : List α) (s : ScanState), P s → P (l.foldl f s) := by
  intro l
  induction l with
  | nil => intro s hs; exact hs
  | cons a t ih => intro s hs; exact ih _ (h s a hs)

theorem scan_preserve (env : Env) (P : ScanState → Prop)
    (hA : ∀ region amiID s, P s → P (processAMI env region amiID s))
    (hT : ∀ s n, P s → P { s with totalInstances := n }) :
    ∀ (regions : List String) (s : ScanState), P s → P (scanRegions env regions s) := by
  have hI : ∀ region instanceID s, P s → P (processInstance env region instanceID s) := by
    intro region instanceID s hs
    unfold processInstance
    cases h : env.describeInstance region instanceID with
    | none => exact hs
    | some amiIDs =>
      exact foldl_preserve (fun t a ht => hA region a t ht) amiIDs s hs
  have hR : ∀ region s, P s → P (processRegion env region s) := by
    intro region s hs
    unfold processRegion
    cases h : env.listInstances region with
    | none => exact hs
    | some instanceIDs =>
      exact foldl_preserve (fun t i ht => hI region i t ht) instanceIDs _ (hT s _ hs)
  intro regions s hs
  exact foldl_preserve (fun t r ht => hR r t ht) regions s hs

theorem scaninv_extend_processed (s : ScanState) (a : String) (r : List String)
    (h : ScanInv s) :
    ScanInv { s with processedAMIs := a :: s.processedAMIs, resolved := r } := by
  obtain ⟨hd, k1, k2, k3, k4⟩ := h
  exact ⟨hd,
    fun x hx => List.mem_cons_of_mem _ (k1 x hx),
    fun x hx => List.mem_cons_of_mem _ (k2 x hx),
    fun x hx => List.mem_cons_of_mem _ (k3 x hx),
    fun x hx => List.mem_cons_of_mem _ (k4 x hx)⟩


theorem disjoint_insert_V (V P U W : List String) (a : String)
    (h : DisjointKeys V P U W) (hP : a ∉ P) (hU : a ∉ U) (hW : a ∉ W) :
    DisjointKeys (a :: V) P U W := by
  obtain ⟨d1, d2, d3⟩ := h
  refine ⟨?_, d2, d3⟩
  intro x hx
  rcases List.mem_cons.mp hx with h1 | h1
  · subst h1; exact ⟨hP, hU, hW⟩
  · exact d1 x h1

theorem disjoint_insert_P (V P U W : List String) (a : String)
    (h : DisjointKeys V P U W) (hV : a ∉ V) (hU : a ∉ U) (hW : a ∉ W) :
    DisjointKeys V (a :: P) U W := by
  obtain ⟨d1, d2, d3⟩ := h
  refine ⟨?_, ?_, d3⟩
  · intro x hx
    refine ⟨?_, (d1 x hx).2.1, (d1 x hx).2.2⟩
    intro hmem
    rcases List.mem_cons.mp hmem with h1 | h1
    · subst h1; exact hV hx
    · exact (d1 x hx).1 h1
  · intro x hx
    rcases List.mem_cons.mp hx with h1 | h1
    · subst h1; exact ⟨hU, hW⟩
    · exact d2 x h1

theorem disjoint_insert_U (V P U W : List String) (a : String)
    (h : DisjointKeys V P U W) (hV : a ∉ V) (hP : a ∉ P) (hW : a ∉ W) :
    DisjointKeys V P (a :: U) W := by
  obtain ⟨d1, d2, d3⟩ := h
  refine ⟨?_, ?_, ?_⟩
  · intro x hx
    refine ⟨(d1 x hx).1, ?_, (d1 x hx).2.2⟩
    intro hmem
    rcases List.mem_cons.mp hmem with h1 | h1
    · subst h1; exact hV hx
    · exact (d1 x hx).2.1 h1
  · intro x hx
    refine ⟨?_, (d2 x hx).2⟩
    intro hmem
    rcases List.mem_cons.mp hmem with h1 | h1
    · subst h1; exact hP hx
    · exact (d2 x hx).1 h1
  · intro x hx
    rcases List.mem_cons.mp hx with h1 | h1
    · subst h1; exact hW
    · exact d3 x h1

theorem disjoint_insert_W (V P U W : List String) (a : String)
    (h : DisjointKeys V P U W) (hV : a ∉ V) (hP : a ∉ P) (hU : a ∉ U) :
    DisjointKeys V P U (a :: W) := by
  obtain ⟨d1, d2, d3⟩ := h
  refine ⟨?_, ?_, ?_⟩
  · intro x hx
    refine ⟨(d1 x hx).1, (d1 x hx).2.1, ?_⟩
    intro hmem
    rcases List.mem_cons.mp hmem with h1 | h1
    · subst h1; exact hV hx
    · exact (d1 x hx).2.2 h1
  · intro x hx
    refine ⟨(d2 x hx).1, ?_⟩
    intro hmem
    rcases List.mem_cons.mp hmem with h1 | h1
    · subst h1; exact hP hx
    · exact (d2 x hx).2 h1
  · intro x hx
    intro hmem
    rcases List.mem_cons.mp hmem with h1 | h1
    · subst h1; exact hU hx
    · exact d3 x hx h1

theorem covered_insert_V (proc V P U W : List String) (a : String)
    (h : CoveredKeys proc V P U W) (ha : a ∈ proc) : CoveredKeys proc (a :: V) P U W := by
  obtain ⟨c1, c2, c3, c4⟩ := h
  refine ⟨?_, c2, c3, c4⟩
  intro x hx
  rcases List.mem_cons.mp hx with h1 | h1
  · subst h1; exact ha
  · exact c1 x h1

theorem covered_insert_P (proc V P U W : List String) (a : String)
    (h : CoveredKeys proc V P U W) (ha : a ∈ proc) : CoveredKeys proc V (a :: P) U W := by
  obtain ⟨c1, c2, c3, c4⟩ := h
  refine ⟨c1, ?_, c3, c4⟩
  intro x hx
  rcases List.mem_cons.mp hx with h1 | h1
  · subst h1; exact ha
  · exact c2 x h1

theorem covered_insert_U (proc V P U W : List String) (a : String)
    (h : CoveredKeys proc V P U W) (ha : a ∈ proc) : CoveredKeys proc V P (a :: U) W := by
  obtain ⟨c1, c2, c3, c4⟩ := h
  refine ⟨c1, c2, ?_, c4⟩
  intro x hx
  rcases List.mem_cons.mp hx with h1 | h1
  · subst h1; exact ha
  · exact c3 x h1

theorem covered_insert_W (proc V P U W : List String) (a : String)
    (h : CoveredKeys proc V P U W) (ha : a ∈ proc) : CoveredKeys proc V P U (a :: W) := by
  obtain ⟨c1, c2, c3, c4⟩ := h
  refine ⟨c1, c2, c3, ?_⟩
  intro x hx
  rcases List.mem_cons.mp hx with h1 | h1
  · subst h1; exact ha
  · exact c4 x h1

theorem covered_extend (proc V P U W : List String) (b : String)
    (h : CoveredKeys proc V P U W) : CoveredKeys (b :: proc) V P U W := by
  obtain ⟨c1, c2, c3, c4⟩ := h
  exact ⟨fun x hx => List.mem_cons_of_mem _ (c1 x hx),
    fun x hx => List.mem_cons_of_mem _ (c2 x hx),
    fun x hx => List.mem_cons_of_mem _ (c3 x hx),
    fun x hx => List.mem_cons_of_mem _ (c4 x hx)⟩

theorem classify_scaninv (region amiID : String) (image : Image) (t : ScanState)
    (h : ScanInv t) (hproc : amiID ∈ t.processedAMIs)
    (hV : amiID ∉ mapKeys t.verifiedAMIs) (hP : amiID ∉ mapKeys t.privateAMIs)
    (hU : amiID ∉ mapKeys t.unknownAMIs) (hW : amiID ∉ mapKeys t.unverifiedAMIs) :
    ScanInv (classifyImage region amiID image t) := by
  obtain ⟨hd, hc⟩ := h
  unfold classifyImage
  split
  · split
    · split
      · refine ⟨?_, ?_⟩
        · show DisjointKeys (mapKeys (mapInsert t.verifiedAMIs amiID (mkAMI region amiID image)))
            (mapKeys t.privateAMIs) (mapKeys t.unknownAMIs) (mapKeys t.unverifiedAMIs)
          rw [mapKeys_insert_fresh _ _ _ hV]
          exact disjoint_insert_V _ _ _ _ _ hd hP hU hW
        · show CoveredKeys t.processedAMIs
            (mapKeys (mapInsert t.verifiedAMIs amiID (mkAMI region amiID image)))
            (mapKeys t.privateAMIs) (mapKeys t.unknownAMIs) (mapKeys t.unverifiedAMIs)
          rw [mapKeys_insert_fresh _ _ _ hV]
          exact covered_insert_V _ _ _ _ _ _ hc hproc
      · split
        · refine ⟨?_, ?_⟩
          · show DisjointKeys (mapKeys t.verifiedAMIs)
              (mapKeys (mapInsert t.privateAMIs amiID
                { mkAMI region amiID image with OwnerAlias := "self" }))
              (mapKeys t.unknownAMIs) (mapKeys t.unverifiedAMIs)
            rw [mapKeys_insert_fresh _ _ _ hP]
            exact disjoint_insert_P _ _ _ _ _ hd hV hU hW
          · show CoveredKeys t.processedAMIs (mapKeys t.verifiedAMIs)
              (mapKeys (mapInsert t.privateAMIs amiID
                { mkAMI region amiID image with OwnerAlias := "self" }))
              (mapKeys t.unknownAMIs) (mapKeys t.unverifiedAMIs)
            rw [mapKeys_insert_fresh _ _ _ hP]
            exact covered_insert_P _ _ _ _ _ _ hc hproc
        · exact ⟨hd, hc⟩
    · refine ⟨?_, ?_⟩
      · show DisjointKeys (mapKeys t.verifiedAMIs) (mapKeys t.privateAMIs)
          (mapKeys t.unknownAMIs)
          (mapKeys (mapInsert t.unverifiedAMIs amiID (mkAMI region amiID image)))
        rw [mapKeys_insert_fresh _ _ _ hW]
        exact disjoint_insert_W _ _ _ _ _ hd hV hP hU
      · show CoveredKeys t.processedAMIs (mapKeys t.verifiedAMIs) (mapKeys t.privateAMIs)
          (mapKeys t.unknownAMIs)
          (mapKeys (mapInsert t.unverifiedAMIs amiID (mkAMI region amiID image)))
        rw [mapKeys_insert_fresh _ _ _ hW]
        exact covered_insert_W _ _ _ _ _ _ hc hproc
  · refine ⟨?_, ?_⟩
    · show DisjointKeys (mapKeys t.verifiedAMIs)
        (mapKeys (mapInsert t.privateAMIs amiID (mkAMI region amiID image)))
        (mapKeys t.unknownAMIs) (mapKeys t.unverifiedAMIs)
      rw [mapKeys_insert_fresh _ _ _ hP]
      exact disjoint_insert_P _ _ _ _ _ hd hV hU hW
    · show CoveredKeys t.processedAMIs (mapKeys t.verifiedAMIs)
        (mapKeys (mapInsert t.privateAMIs amiID (mkAMI region amiID image)))
        (mapKeys t.unknownAMIs) (mapKeys t.unverifiedAMIs)
      rw [mapKeys_insert_fresh _ _ _ hP]
      exact covered_insert_P _ _ _ _ _ _ hc hproc

theorem processAMI_scaninv (env : Env) (hres : ResolverSingle env)
    (region amiID : String) (s : ScanState) (h : ScanInv s) :
    ScanInv (processAMI env region amiID s) := by
  unfold processAMI
  split
  · exact h
  · next hnotin =>
    obtain ⟨hd, hc⟩ := h
    obtain ⟨c1, c2, c3, c4⟩ := hc
    have hV : amiID ∉ mapKeys s.verifiedAMIs := fun hm => hnotin (c1 amiID hm)
    have hP : amiID ∉ mapKeys s.privateAMIs := fun hm => hnotin (c2 amiID hm)
    have hU : amiID ∉ mapKeys s.unknownAMIs := fun hm => hnotin (c3 amiID hm)
    have hW : amiID ∉ mapKeys s.unverifiedAMIs := fun hm => hnotin (c4 amiID hm)
    have hs1 : ScanInv { s with processedAMIs := amiID :: s.processedAMIs,
                                resolved := amiID :: s.resolved } :=
      scaninv_extend_processed s amiID (amiID :: s.resolved) ⟨hd, c1, c2, c3, c4⟩
    cases henv : env.describeImages region amiID with
    | none => exact hs1
    | some images =>
      cases images with
      | nil =>
        refine ⟨?_, ?_⟩
        · show DisjointKeys (mapKeys s.verifiedAMIs) (mapKeys s.privateAMIs)
            (mapKeys (mapInsert s.unknownAMIs amiID (unknownAMI amiID region)))
            (mapKeys s.unverifiedAMIs)
          rw [mapKeys_insert_fresh _ _ _ hU]
          exact disjoint_insert_U _ _ _ _ _ hd hV hP hW
        · show CoveredKeys (amiID :: s.processedAMIs) (mapKeys s.verifiedAMIs)
            (mapKeys s.privateAMIs)
            (mapKeys (mapInsert s.unknownAMIs amiID (unknownAMI amiID region)))
            (mapKeys s.unverifiedAMIs)
          rw [mapKeys_insert_fresh _ _ _ hU]
          exact covered_insert_U _ _ _ _ _ _
            (covered_extend _ _ _ _ _ _ ⟨c1, c2, c3, c4⟩) (List.mem_cons_self _ _)
      | cons i rest =>
        have hlen := hres region amiID (i :: rest) henv
        have hrest : rest = [] := by
          simp only [List.length_cons] at hlen
          have h0 : rest.length = 0 := by omega
          exact List.length_eq_zero.mp h0
        subst hrest
        show ScanInv (classifyImage region amiID i
          { s with processedAMIs := amiID :: s.processedAMIs, resolved := amiID :: s.resolved })
        exact classify_scaninv region amiID i _ hs1 (List.mem_cons_self _ _) hV hP hU hW

theorem regionStamped_refl (region amiID : String) (t : ScanState) :
    RegionStamped region amiID t t := by
  unfold RegionStamped
  exact ⟨fun rec h => Or.inl h, fun rec h => Or.inl h,
    fun rec h => Or.inl h, fun rec h => Or.inl h⟩

theorem regionStamped_trans (region amiID : String) (t u w : ScanState)
    (h1 : RegionStamped region amiID t u) (h2 : RegionStamped region amiID u w) :
    RegionStamped region amiID t w := by
  obtain ⟨a1, a2, a3, a4⟩ := h1
  obtain ⟨b1, b2, b3, b4⟩ := h2
  unfold RegionStamped
  refine ⟨?_, ?_, ?_, ?_⟩ <;> intro rec hr
  · rcases b1 rec hr with h | h
    · exact a1 rec h
    · exact Or.inr h
  · rcases b2 rec hr with h | h
    · exact a2 rec h
    · exact Or.inr h
  · rcases b3 rec hr with h | h
    · exact a3 rec h
    · exact Or.inr h
  · rcases b4 rec hr with h | h
    · exact a4 rec h
    · exact Or.inr h

theorem regionStamped_insert_V (region amiID : String) (t : ScanState) (v : AMI)
    (hv : v.Region = region) :
    RegionStamped region amiID t { t with verifiedAMIs := mapInsert t.verifiedAMIs amiID v } := by
  unfold RegionStamped
  refine ⟨?_, ?_, ?_, ?_⟩ <;> intro rec hr
  · replace hr : mapFind (mapInsert t.verifiedAMIs amiID v) amiID = some rec := hr
    rw [mapFind_insert_self] at hr
    injection hr with h
    exact Or.inr (h ▸ hv)
  · exact Or.inl hr
  · exact Or.inl hr
  · exact Or.inl hr

theorem regionStamped_insert_P (region amiID : String) (t : ScanState) (v : AMI)
    (hv : v.Region = region) :
    RegionStamped region amiID t { t with privateAMIs := mapInsert t.privateAMIs amiID v } := by
  unfold RegionStamped
  refine ⟨?_, ?_, ?_, ?_⟩ <;> intro rec hr
  · exact Or.inl hr
  · replace hr : mapFind (mapInsert t.privateAMIs amiID v) amiID = some rec := hr
    rw [mapFind_insert_self] at hr
    injection hr with h
    exact Or.inr (h ▸ hv)
  · exact Or.inl hr
  · exact Or.inl hr

theorem regionStamped_insert_W (region amiID : String) (t : ScanState) (v : AMI)
    (hv : v.Region = region) :
    RegionStamped region amiID t
      { t with unverifiedAMIs := mapInsert t.unverifiedAMIs amiID v } := by
  unfold RegionStamped
  refine ⟨?_, ?_, ?_, ?_⟩ <;> intro rec hr
  · exact Or.inl hr
  · exact Or.inl hr
  · exact Or.inl hr
  · replace hr : mapFind (mapInsert t.unverifiedAMIs amiID v) amiID = some rec := hr
    rw [mapFind_insert_self] at hr
    injection hr with h
    exact Or.inr (h ▸ hv)

theorem classify_regionStamped (region amiID : String) (image : Image) (t : ScanState) :
    RegionStamped region amiID t (classifyImage region amiID image t) := by
  unfold classifyImage
  split
  · split
    · split
      · exact regionStamped_insert_V region amiID t _ rfl
      · split
        · exact regionStamped_insert_P region amiID t _ rfl
        · exact regionStamped_refl region amiID t
    · exact regionStamped_insert_W region amiID t _ rfl
  · exact regionStamped_insert_P region amiID t _ rfl

theorem foldl_classify_regionStamped (region amiID : String) (images : List Image)
    (t : ScanState) :
    RegionStamped region amiID t
      (images.foldl (fun u image => classifyImage region amiID image u) t) := by
  induction images generalizing t with
  | nil => exact regionStamped_refl region amiID t
  | cons i rest ih =>
    rw [List.foldl_cons]
    exact regionStamped_trans region amiID _ _ _
      (classify_regionStamped region amiID i t) (ih _)

theorem processAMI_regionStamped (env : Env) (region amiID : String) (t : ScanState) :
    RegionStamped region amiID t (processAMI env region amiID t) := by
  unfold processAMI
  split
  · exact regionStamped_refl region amiID t
  · cases henv : env.describeImages region amiID with
    | none =>
      unfold RegionStamped
      refine ⟨?_, ?_, ?_, ?_⟩ <;> intro rec hr <;> exact Or.inl hr
    | some images =>
      cases images with
      | nil =>
        unfold RegionStamped
        refine ⟨?_, ?_, ?_, ?_⟩ <;> intro rec hr
        · exact Or.inl hr
        · exact Or.inl hr
        · replace hr : mapFind (mapInsert t.unknownAMIs amiID (unknownAMI amiID region)) amiID
              = some rec := hr
          rw [mapFind_insert_self] at hr
          injection hr with h
          exact Or.inr (h ▸ (rfl : (unknownAMI amiID region).Region = region))
        · exact Or.inl hr
      | cons i rest =>
        have h1 : RegionStamped region amiID t
            { t with processedAMIs := amiID :: t.processedAMIs,
                     resolved := amiID :: t.resolved } := by
          unfold RegionStamped
          refine ⟨?_, ?_, ?_, ?_⟩ <;> intro rec hr <;> exact Or.inl hr
        exact regionStamped_trans region amiID _ _ _ h1
          (foldl_classify_regionStamped region amiID (i :: rest) _)

/-- C1: the claim says a resolved public image whose owner alias is any
value other than "amazon" and "self" (e.g. "12345") is placed in the
unverified bucket.  The code refutes this: the nested `if` at main.go
lines 186-203 has no `else` for a non-empty, non-reserved alias, so
`classifyImage` leaves the state unchanged and after a full scan the
image is marked processed yet the unverified bucket stays empty. -/
theorem C1_thirdparty_public_dropped :
    classifyImage "us-east-1" "ami-2" img12345 initState = initState
    ∧ "ami-2" ∈ (runScan env1 ["us-east-1"]).processedAMIs
    ∧ (runScan env1 ["us-east-1"]).unverifiedAMIs = [] := by decide

/-- C2: the claim says every processed image id ends up in exactly one of
the four buckets.  Evaluating the scan on a public image with owner alias
"12345" shows the id processed but present in none of the buckets. -/
theorem C2_processed_without_category :
    (runScan env1 ["us-east-1"]).processedAMIs = ["ami-2"]
    ∧ bucketFindAll (runScan env1 ["us-east-1"]) "ami-2" = (none, none, none, none) := by
  decide

/-- C3: the claim says the four per-category counts sum to the number of
distinct processed images.  On the same run the summary shows one
processed AMI and all four counts zero (0 ≠ 1), though the processed
count does stay ≤ the instance total. -/
theorem C3_counts_do_not_reconcile :
    summarize (runScan env1 ["us-east-1"])
      = { totalInstances := 1, totalAMIs := 1, privateCount := 0, verifiedCount := 0,
          unknownCount := 0, unverifiedCount := 0 } := by decide

/-- C4: the claim says Unknown rows render five trailing fields (eight
pipe-separated columns, like the header).  The format string at main.go
line 258 emits only four trailing "Unknown" fields: the header has 7
pipes (8 columns) and a verified row has 7 pipes, but an Unknown row has
only 6 pipes (7 columns). -/
theorem C4_unknown_row_missing_column :
    headerLine.toList.count (Char.ofNat 124) = 7
    ∧ rowUnknown (unknownAMI "ami-3" "us-east-1")
        = "ami-3|us-east-1|Unknown|Unknown|Unknown|Unknown|Unknown\n"
    ∧ (rowUnknown (unknownAMI "ami-3" "us-east-1")).toList.count (Char.ofNat 124) = 6
    ∧ (rowVerified amiA).toList.count (Char.ofNat 124) = 7 := by decide

/-- C5: per scan run each distinct image id is resolved and classified at
most once, and the first region observing it fixes its record.  The ghost
`resolved` log stays duplicate-free; once an id is in the dedup cache no
further scanning changes its bucket records; and any record a step of
region `region` creates for a fresh id carries that region in its
`Region` field. -/
theorem C5_dedup_first_region_wins (env : Env) (regions : List String) (s : ScanState)
    (j : String) (hinv : ResolvedInv s) (hj : j ∈ s.processedAMIs) :
    ResolvedInv (scanRegions env regions s)
    ∧ bucketFindAll (scanRegions env regions s) j = bucketFindAll s j
    ∧ ∀ region amiID t, RegionStamped region amiID t (processAMI env region amiID t) := by
  have hpres := scan_preserve env
    (fun t => ResolvedInv t ∧ (j ∈ t.processedAMIs ∧ bucketFindAll t j = bucketFindAll s j))
    (fun region amiID t ht => ⟨processAMI_resolved_inv env region amiID t ht.1,
      processAMI_processed_mono env region amiID t j ht.2.1,
      (processAMI_find_preserved env region amiID t j ht.2.1).trans ht.2.2⟩)
    (fun t n ht => ht) regions s ⟨hinv, hj, rfl⟩
  exact ⟨hpres.1, hpres.2.2,
    fun region amiID t => processAMI_regionStamped env region amiID t⟩

/-- C5 witness: the theorem applied to a concrete environment and a state
that has already processed "ami-1". -/
theorem C5_dedup_witness :
    ResolvedInv statePre ∧ "ami-1" ∈ statePre.processedAMIs
    ∧ bucketFindAll (scanRegions env1 ["us-east-1"] statePre) "ami-1"
        = bucketFindAll statePre "ami-1" :=
  ⟨⟨List.nodup_nil, fun x hx => absurd hx (List.not_mem_nil x)⟩,
   List.mem_cons_self _ _,
   (C5_dedup_first_region_wins env1 ["us-east-1"] statePre "ami-1"
      ⟨List.nodup_nil, fun x hx => absurd hx (List.not_mem_nil x)⟩
      (List.mem_cons_self _ _)).2.1⟩

/-- C6: when the resolver reports an empty image list the orchestrator
files the id in the unknown bucket with every descriptive field equal to
the literal "Unknown" (main.go lines 155-167), and the id is marked
processed rather than discarded. -/
theorem C6_notfound_unknown (env : Env) (region amiID : String) (s : ScanState)
    (hfresh : amiID ∉ s.processedAMIs) (hnf : env.describeImages region amiID = some []) :
    mapFind (processAMI env region amiID s).unknownAMIs amiID
      = some { ID := amiID, Region := region, OwnerAlias := "Unknown", OwnerID := "Unknown",
               Name := "Unknown", Description := "Unknown", Public := "Unknown" }
    ∧ amiID ∈ (processAMI env region amiID s).processedAMIs := by
  unfold processAMI
  rw [if_neg hfresh, hnf]
  exact ⟨mapFind_insert_self _ _ _, List.mem_cons_self _ _⟩

/-- C6 witness: the theorem applied to an environment whose resolver
returns not-found for "ami-5". -/
theorem C6_notfound_witness :
    "ami-5" ∉ initState.processedAMIs
    ∧ envNF.describeImages "r1" "ami-5" = some []
    ∧ mapFind (processAMI envNF "r1" "ami-5" initState).unknownAMIs "ami-5"
        = some { ID := "ami-5", Region := "r1", OwnerAlias := "Unknown", OwnerID := "Unknown",
                 Name := "Unknown", Description := "Unknown", Public := "Unknown" } :=
  ⟨List.not_mem_nil _, rfl,
   (C6_notfound_unknown envNF "r1" "ami-5" initState (List.not_mem_nil _) rfl).1⟩

/-- C7 counterexample: the claim says a transient resolver error is
handled exactly like NotFound, classifying the image Unknown.  Running
the scan with an erroring resolver leaves the unknown bucket empty even
though the image id was processed: main.go lines 149-154 just `continue`,
they never insert into `unknownAMIs`. -/
theorem C7_error_not_unknown_counterexample :
    "ami-9" ∈ (runScan envErr ["r1"]).processedAMIs
    ∧ (runScan envErr ["r1"]).unknownAMIs = []
    ∧ mapFind (runScan envErr ["r1"]).unknownAMIs "ami-9" = none := by decide

/-- C7 amended: on a transient resolver error the orchestrator marks the
image processed and skips it — it lands in no bucket, unlike NotFound —
and the scan continues normally (the step is a total state transformation
that only extends the dedup cache and the call log). -/
theorem C7_amended_error_skips (env : Env) (region amiID : String) (s : ScanState)
    (hfresh : amiID ∉ s.processedAMIs) (herr : env.describeImages region amiID = none) :
    processAMI env region amiID s
      = { s with processedAMIs := amiID :: s.processedAMIs,
                 resolved := amiID :: s.resolved } := by
  unfold processAMI
  rw [if_neg hfresh, herr]

/-- C7 witness: the amended theorem applied to the erroring resolver. -/
theorem C7_amended_witness :
    "ami-9" ∉ initState.processedAMIs
    ∧ envErr.describeImages "r1" "ami-9" = none
    ∧ processAMI envErr "r1" "ami-9" initState
        = { initState with processedAMIs := ["ami-9"], resolved := ["ami-9"] } :=
  ⟨List.not_mem_nil _, rfl,
   C7_amended_error_skips envErr "r1" "ami-9" initState (List.not_mem_nil _) rfl⟩

/-- C8: a region whose instance listing fails is skipped and contributes
nothing: scanning with the failing region interposed yields exactly the
state — and hence exactly the summary — of scanning without it, so all
other regions are still processed and the final summary is unaffected. -/
theorem C8_region_failure_isolated (env : Env) (rs1 rs2 : List String) (r : String)
    (s : ScanState) (hfail : env.listInstances r = none) :
    scanRegions env (rs1 ++ r :: rs2) s = scanRegions env (rs1 ++ rs2) s
    ∧ summarize (scanRegions env (rs1 ++ r :: rs2) s)
        = summarize (scanRegions env (rs1 ++ rs2) s) := by
  have hskip : ∀ t : ScanState, processRegion env r t = t := by
    intro t
    unfold processRegion
    rw [hfail]
  have hmain : scanRegions env (rs1 ++ r :: rs2) s = scanRegions env (rs1 ++ rs2) s := by
    unfold scanRegions
    rw [List.foldl_append, List.foldl_append, List.foldl_cons, hskip]
  exact ⟨hmain, congrArg summarize hmain⟩

/-- C8 witness: the theorem applied to an environment where region "bad"
fails to list instances. -/
theorem C8_region_witness :
    envFail.listInstances "bad" = none
    ∧ scanRegions envFail (["a"] ++ "bad" :: ["c"]) initState
        = scanRegions envFail (["a"] ++ ["c"]) initState :=
  ⟨rfl, (C8_region_failure_isolated envFail ["a"] ["c"] "bad" initState rfl).1⟩

/-- C9 counterexample: the claim says the export bytes depend only on the
buckets' contents.  Go's map iteration order is unspecified, so the same
verified bucket can be enumerated as [amiA, amiB] or [amiB, amiA]; these
are permutations of the same contents yet produce different bytes. -/
theorem C9_export_order_counterexample :
    [amiA, amiB].Perm [amiB, amiA]
    ∧ exportFile [amiA, amiB] [] [] [] ≠ exportFile [amiB, amiA] [] [] [] :=
  ⟨List.Perm.swap amiB amiA [], by decide⟩

/-- C9 amended: exporting the same final bucket contents twice produces
the same header and the same multiset of rows per category block — the
line sequences are permutations of one another — but not necessarily
byte-identical files, since the bucket enumeration order is unspecified. -/
theorem C9_amended_lines_perm (v1 v2 p1 p2 u1 u2 w1 w2 : List AMI)
    (hv : v1.Perm v2) (hp : p1.Perm p2) (hu : u1.Perm u2) (hw : w1.Perm w2) :
    (exportLines v1 p1 u1 w1).Perm (exportLines v2 p2 u2 w2) := by
  unfold exportLines
  exact List.Perm.cons _
    ((((hv.map rowVerified).append (hp.map rowPrivate)).append
      (hu.map rowUnknown)).append (hw.map rowUnverified))

/-- C9 witness: the amended theorem applied to concrete singleton
buckets. -/
theorem C9_amended_witness :
    [amiA].Perm [amiA]
    ∧ (exportLines [amiA] [] [] []).Perm (exportLines [amiA] [] [] []) :=
  ⟨List.Perm.refl _,
   C9_amended_lines_perm [amiA] [amiA] [] [] [] [] [] []
     (List.Perm.refl _) (List.Perm.refl _) (List.Perm.refl _) (List.Perm.refl _)⟩

/-- C10: the four buckets are pairwise disjoint at all times, provided the
resolver honours its contract of returning at most one image per id: the
invariant holds initially, is preserved by every image-processing step and
by any scan continuation, and holds of every completed run. -/
theorem C10_buckets_pairwise_disjoint (env : Env) (hres : ResolverSingle env) :
    ScanInv initState
    ∧ (∀ region amiID s, ScanInv s → ScanInv (processAMI env region amiID s))
    ∧ (∀ regions s, ScanInv s → ScanInv (scanRegions env regions s))
    ∧ ∀ regions, BucketsDisjoint (runScan env regions) := by
  have hinit : ScanInv initState := by
    refine ⟨⟨?_, ?_, ?_⟩, ?_, ?_, ?_, ?_⟩ <;> intro x hx <;>
      exact absurd hx (List.not_mem_nil x)
  have hscan : ∀ regions s, ScanInv s → ScanInv (scanRegions env regions s) :=
    fun regions s hs => scan_preserve env ScanInv
      (fun region amiID t ht => processAMI_scaninv env hres region amiID t ht)
      (fun t n ht => ht) regions s hs
  exact ⟨hinit, fun region amiID s hs => processAMI_scaninv env hres region amiID s hs,
    hscan, fun regions => (hscan regions initState hinit).1⟩

/-- C10 witness: the theorem applied to a concrete single-image
environment that satisfies the resolver contract. -/
theorem C10_disjoint_witness :
    ResolverSingle env1 ∧ BucketsDisjoint (runScan env1 ["us-east-1"]) := by
  have hres : ResolverSingle env1 := by
    intro region amiID images h
    have h2 : [img12345] = images := by simpa [env1] using h
    rw [← h2]
    simp
  exact ⟨hres, (C10_buckets_pairwise_disjoint env1 hres).2.2.2 ["us-east-1"]⟩
